import Mathlib

/-!
Verification development for the plato-runner job-dispatch and aggregation engine
(src/index.js and src/lib/worker.js). The JavaScript code is shallowly embedded:
JavaScript Maps become association lists over String keys, the heterogeneous values
stored in the reports map become the inductive type Entry, the external analyzer
(es6-plato getOverviewReport) becomes an abstract reduction parameter, and every
per-module interaction with the environment (manifest contents, classifier output,
filesystem checks, per-job analyzer outcomes) is passed in as explicit input data.
-/

set_option autoImplicit false

namespace PlatoRunner

/-! ## String helpers modelling the JavaScript string primitives used by the runner -/

/-- models checking that the pattern (first argument) occurs at the start of the
second argument, on char lists. -/
def startsWithChars : List Char → List Char → Bool
  | [], _ => true
  | _ :: _, [] => false
  | p :: ps, c :: cs => p == c && startsWithChars ps cs

/-- models JavaScript String.prototype.includes on char lists: the pattern is the
second argument. -/
def includesChars : List Char → List Char → Bool
  | _, [] => true
  | [], _ :: _ => false
  | c :: rest, p :: ps => startsWithChars (p :: ps) (c :: rest) || includesChars rest (p :: ps)

/-- models the JavaScript substring test s.includes(pat). -/
def strIncludes (s pat : String) : Bool := includesChars s.data pat.data

/-- whitespace characters recognised when trimming. -/
def isJsWhitespace (c : Char) : Bool := c == ' ' || c == '\t' || c == '\n' || c == '\r'

/-- models JavaScript String.prototype.trim. -/
def jsTrim (s : String) : String :=
  String.mk (((s.data.dropWhile isJsWhitespace).reverse.dropWhile isJsWhitespace).reverse)

/-- chars strictly before the last slash of the list, or none when there is no slash. -/
def dirnameChars : List Char → Option (List Char)
  | [] => none
  | c :: rest =>
    match dirnameChars rest with
    | some tail => some (c :: tail)
    | none => if c == '/' then some [] else none

/-- models path.dirname for the ordinary relative paths the runner handles. -/
def dirname (p : String) : String :=
  match dirnameChars p.data with
  | some l => String.mk l
  | none => "."

/-- chars after the last slash. -/
def lastSegment : List Char → List Char
  | [] => []
  | c :: rest =>
    if rest.contains '/' then lastSegment rest
    else if c == '/' then rest else c :: rest

/-- models path.basename, used only to state the spec-side manifest-filename condition. -/
def basename (p : String) : String := String.mk (lastSegment p.data)

/-- models module.replace applied with the regex of non-alphanumeric characters and
the replacement character for the fallback title (src/index.js line 222). -/
def sanitize (s : String) : String :=
  String.mk (s.data.map (fun c => if c.isAlphanum then c else '_'))

/-! ## Data model -/

/-- parsed manifest data the engine reads from a package.json file: the optional
name field and the optional keywords array. -/
structure Manifest where
  name : Option String
  keywords : Option (List String)
deriving DecidableEq

/-- models the JavaScript optional-chaining test json?.keywords?.includes(k):
an absent keywords array behaves as a false test. -/
def keywordsInclude (j : Manifest) (k : String) : Bool :=
  match j.keywords with
  | some ks => ks.contains k
  | none => false

/-- getModuleType (src/index.js lines 156 to 158). -/
def getModuleType (moduleData : Manifest) : String :=
  if keywordsInclude moduleData "ember-engine" then "engines" else "addons"

/-- execShellCommand (src/index.js lines 58 to 68): the promise resolves with stdout
when stdout is truthy (non-empty) and otherwise with stderr. -/
def execShellCommand (stdout stderr : String) : String :=
  if stdout != "" then stdout else stderr

/-- getModuleOwner (src/index.js lines 161 to 167): with a configured owners script
the trimmed shell-command result is used, otherwise the constant ALL; a result
containing the substring Error is thrown as an error. The two strings are the
stdout and stderr the owners script would produce for this module. -/
def getModuleOwner (owners stdout stderr : String) : Except String String :=
  let moduleOwner := if owners != "" then jsTrim (execShellCommand stdout stderr) else "ALL"
  if strIncludes moduleOwner "Error" then Except.error moduleOwner else Except.ok moduleOwner

/-- heterogeneous value stored in the reports map: a plain array of per-file records,
an overview report produced by the analyzer reduction, or a nested Map. -/
inductive Entry (α β : Type) where
  | raw (l : List α)
  | ov (b : β)
  | map (m : List (String × Entry α β))

/-- a JavaScript Map with String keys, in insertion order. -/
abbrev JsMap (α β : Type) := List (String × Entry α β)

variable {α β : Type}

/-- models Map.prototype.get. -/
def mapGet : List (String × Entry α β) → String → Option (Entry α β)
  | [], _ => none
  | (k1, v) :: rest, k => if k1 == k then some v else mapGet rest k

/-- models Map.prototype.set: replaces the first binding of the key in place,
otherwise appends a new binding. -/
def mapSet : List (String × Entry α β) → String → Entry α β → List (String × Entry α β)
  | [], k, v => [(k, v)]
  | (k1, v1) :: rest, k, v => if k1 == k then (k, v) :: rest else (k1, v1) :: mapSet rest k v

/-- models Map.prototype.has. -/
def mapHas (m : List (String × Entry α β)) (k : String) : Bool := (mapGet m k).isSome

/-- the initial global reportsMap (src/index.js lines 48 to 50): one binding of the
summary key to an empty array. -/
def reportsMap : JsMap α β := [("summary", Entry.raw [])]

/-- the subtree installed for a newly seen owner (src/index.js lines 210 to 215). -/
def newOwnerEntry : Entry α β :=
  Entry.map
    [("addons", Entry.map [("summary", Entry.raw [])]),
     ("engines", Entry.map [("summary", Entry.raw [])]),
     ("tests", Entry.map [("summary", Entry.raw [])]),
     ("summary", Entry.raw [])]

/-! ## Worker exclusion patterns (src/lib/worker.js) -/

/-- the base exclusion alternatives of inspectModule (src/lib/worker.js line 6). -/
def excludeBase : String := "app|styles|build|.eyeglass_cache"

/-- the exclusion regex source chosen by inspectModule (src/lib/worker.js lines 12
to 14): the choice tests whether the job title contains the substring tests. -/
def inspectModuleExclude (title : String) : String :=
  if strIncludes title "tests" then excludeBase ++ "|addon|index.js"
  else excludeBase ++ "|tests"

/-! ## Job scheduling (the loop of run, src/index.js lines 201 to 242) -/

/-- one analysis job dispatched to the worker pool, together with the outcome its
analyzer invocation will have: some report on success, none when the invocation
rejects. -/
structure Job (α : Type) where
  owner : String
  category : String
  srcPath : String
  moduleDir : String
  title : String
  outcome : Option (List α)
deriving DecidableEq

/-- the per-path environment data the run loop reads: the manifest the path parses
to, the stdout and stderr the owners script prints for it, whether a tests
subdirectory exists, and the analyzer outcomes of its body and tests jobs. -/
structure ModuleInput (α : Type) where
  path : String
  manifest : Manifest
  classifierStdout : String
  classifierStderr : String
  hasTests : Bool
  bodyOutcome : Option (List α)
  testsOutcome : Option (List α)
deriving DecidableEq

/-- one iteration of the run loop (src/index.js lines 201 to 242): skip paths whose
manifest lacks the ember-addon keyword, otherwise resolve the owner (propagating a
thrown classifier error), default an empty label to UNKOWN, create the owner
subtree on first sight, and emit the body job plus, when a tests directory exists,
the tests job. -/
def scheduleModule (owners : String) (m : ModuleInput α) (tree : JsMap α β) :
    Except String (JsMap α β × List (Job α)) :=
  if keywordsInclude m.manifest "ember-addon" then
    match getModuleOwner owners m.classifierStdout m.classifierStderr with
    | Except.error e => Except.error e
    | Except.ok owner0 =>
      let owner := if owner0.length == 0 then "UNKOWN" else owner0
      let tree1 := if mapHas tree owner then tree else mapSet tree owner newOwnerEntry
      let moduleType := getModuleType m.manifest
      let dir := dirname m.path
      let title :=
        match m.manifest.name with
        | some n => n
        | none => sanitize dir
      let bodyJob : Job α := ⟨owner, moduleType, m.path, dir, title, m.bodyOutcome⟩
      let jobs :=
        if m.hasTests then
          [bodyJob, ⟨owner, "tests", m.path, dir, title ++ "-tests", m.testsOutcome⟩]
        else [bodyJob]
      Except.ok (tree1, jobs)
  else
    Except.ok (tree, [])

/-- the sequential for-await loop over the filtered module list: a thrown classifier
error stops the loop and aborts the run, jobs of earlier modules having already been
dispatched. Returns the tree, the dispatched jobs, and the pending error if any. -/
def scheduleAll (owners : String) : List (ModuleInput α) → JsMap α β →
    JsMap α β × List (Job α) × Option String
  | [], tree => (tree, [], none)
  | m :: rest, tree =>
    match scheduleModule owners m tree with
    | Except.error e => (tree, [], some e)
    | Except.ok (tree1, js) =>
      let r := scheduleAll owners rest tree1
      (r.1, js ++ r.2.1, r.2.2)

/-! ## Completion callbacks and the join barrier -/

/-- the completion callback of inspectAndProcessModule (src/index.js lines 172 to
177): set the module leaf to the overview of the report, then push the raw records
onto the category, owner, and global summary arrays. A JavaScript TypeError
(calling get, set or push on a value of the wrong shape) stops the callback and
rejects the promise of the job, leaving earlier in-place mutations visible; the
Bool is false exactly when the callback would throw. -/
def inspectAndProcessModule (overview : List α → β) (tree : JsMap α β)
    (moduleOwner moduleType moduleDir : String) (report : List α) : JsMap α β × Bool :=
  match mapGet tree moduleOwner with
  | some (Entry.map m1) =>
    match mapGet m1 moduleType with
    | some (Entry.map m2) =>
      let m2a := mapSet m2 moduleDir (Entry.ov (overview report))
      match mapGet m2a "summary" with
      | some (Entry.raw l2) =>
        let m2b := mapSet m2a "summary" (Entry.raw (l2 ++ report))
        let m1a := mapSet m1 moduleType (Entry.map m2b)
        match mapGet m1a "summary" with
        | some (Entry.raw l1) =>
          let m1b := mapSet m1a "summary" (Entry.raw (l1 ++ report))
          let ta := mapSet tree moduleOwner (Entry.map m1b)
          match mapGet ta "summary" with
          | some (Entry.raw lg) => (mapSet ta "summary" (Entry.raw (lg ++ report)), true)
          | _ => (ta, false)
        | _ => (mapSet tree moduleOwner (Entry.map m1a), false)
      | _ => (mapSet tree moduleOwner (Entry.map (mapSet m1 moduleType (Entry.map m2a))), false)
    | _ => (tree, false)
  | _ => (tree, false)

/-- the settling of one job: a job whose analyzer invocation rejects runs no
callback and leaves the tree unchanged; a successful job runs its completion
callback. The Bool is true exactly when the promise of the job fulfills. -/
def settleOne (overview : List α → β) (tree : JsMap α β) (j : Job α) : JsMap α β × Bool :=
  match j.outcome with
  | none => (tree, false)
  | some report =>
    inspectAndProcessModule overview tree j.owner j.category j.moduleDir report

/-- the settling of all dispatched jobs, in dispatch order: the tree accumulates
the callbacks of the settled jobs and the Bool is true exactly when every job
fulfilled, that is, when the Promise.all barrier fulfills and the summary pass
will run. -/
def settleJobs (overview : List α → β) (tree : JsMap α β) : List (Job α) → JsMap α β × Bool
  | [] => (tree, true)
  | j :: rest =>
    let r1 := settleOne overview tree j
    let r2 := settleJobs overview r1.1 rest
    (r2.1, r1.2 && r2.2)

/-! ## Summary pass (function _reportsMap, src/index.js lines 244 to 263) -/

/-- getOverviewReport applied to an entry: the pass only ever applies it to the raw
summary arrays, so other entries are returned unchanged. -/
def ovEntry (overview : List α → β) : Entry α β → Entry α β
  | Entry.raw l => Entry.ov (overview l)
  | e => e

/-- the innermost forEach over a category map: only the summary binding is replaced
by its overview. -/
def passCategory (overview : List α → β) : Entry α β → Entry α β
  | Entry.map m2 =>
    Entry.map (m2.map (fun p => (p.1, if p.1 == "summary" then ovEntry overview p.2 else p.2)))
  | e => e

/-- the middle forEach over an owner map: the owner summary array is replaced by its
overview and each category map is processed. -/
def passOwner (overview : List α → β) : Entry α β → Entry α β
  | Entry.map m1 =>
    Entry.map (m1.map (fun p =>
      (p.1, if p.1 == "summary" then ovEntry overview p.2 else passCategory overview p.2)))
  | e => e

/-- the summary computation pass run after the join barrier. -/
def summaryPass (overview : List α → β) (tree : JsMap α β) : JsMap α β :=
  tree.map (fun p =>
    (p.1, if p.1 == "summary" then ovEntry overview p.2 else passOwner overview p.2))

/-! ## The whole run (src/index.js lines 180 to 269) -/

inductive RunStatus where
  | emitted
  | emptyGlob
  | classifierAbort (msg : String)
  | rejected
deriving DecidableEq

inductive RunEvent (α : Type) where
  | copyAssets
  | scheduleJob (j : Job α)
  | emitReports
deriving DecidableEq

structure RunResult (α β : Type) where
  events : List (RunEvent α)
  tree : JsMap α β
  status : RunStatus

/-- the substring filter of the glob result (src/index.js line 195). -/
def filteredModules (files : List (ModuleInput α)) : List (ModuleInput α) :=
  files.filter (fun f => strIncludes f.path "package.json")

/-- scheduling portion of the run applied to the glob result. -/
def schedOf (owners : String) (files : List (ModuleInput α)) :
    JsMap α β × List (Job α) × Option String :=
  scheduleAll owners (filteredModules files) reportsMap

/-- continuation of the run after scheduling: a pending classifier error aborts the
run; otherwise the jobs settle, and when the Promise.all barrier fulfills the
summary pass runs and the reports are emitted. -/
def runScheduled (overview : List α → β) :
    JsMap α β × List (Job α) × Option String → RunResult α β
  | (tree, jobs, some msg) =>
    ⟨RunEvent.copyAssets :: jobs.map RunEvent.scheduleJob, tree, RunStatus.classifierAbort msg⟩
  | (tree, jobs, none) =>
    let settled := settleJobs overview tree jobs
    if settled.2 then
      ⟨RunEvent.copyAssets :: (jobs.map RunEvent.scheduleJob ++ [RunEvent.emitReports]),
        summaryPass overview settled.1, RunStatus.emitted⟩
    else
      ⟨RunEvent.copyAssets :: jobs.map RunEvent.scheduleJob, settled.1, RunStatus.rejected⟩

/-- the run function (src/index.js lines 180 to 269): copy the static assets, throw
when the glob expansion is empty, filter to manifest paths, schedule jobs while
resolving owners sequentially, settle all jobs, and when the barrier fulfills run
the summary pass and emit the reports. The event list records the externally
visible work in order. -/
def run (overview : List α → β) (owners : String) (files : List (ModuleInput α)) :
    RunResult α β :=
  if files.isEmpty then
    ⟨[RunEvent.copyAssets], reportsMap, RunStatus.emptyGlob⟩
  else
    runScheduled overview (schedOf (β := β) owners files)

/-! ## Specification-side accessors and reference reductions -/

/-- the three category keys of an owner subtree. -/
def cats : List String := ["addons", "engines", "tests"]

/-- the overview stored as the summary of a category map, if present. -/
def catSummaryOv (tree : JsMap α β) (o c : String) : Option β :=
  match mapGet tree o with
  | some (Entry.map m1) =>
    match mapGet m1 c with
    | some (Entry.map m2) =>
      match mapGet m2 "summary" with
      | some (Entry.ov b) => some b
      | _ => none
    | _ => none
  | _ => none

/-- the raw array stored as the summary of a category map, if present. -/
def catSummaryRaw (tree : JsMap α β) (o c : String) : Option (List α) :=
  match mapGet tree o with
  | some (Entry.map m1) =>
    match mapGet m1 c with
    | some (Entry.map m2) =>
      match mapGet m2 "summary" with
      | some (Entry.raw l) => some l
      | _ => none
    | _ => none
  | _ => none

/-- the overview stored at a module leaf, if present. -/
def leafOv (tree : JsMap α β) (o c moduleDir : String) : Option β :=
  match mapGet tree o with
  | some (Entry.map m1) =>
    match mapGet m1 c with
    | some (Entry.map m2) =>
      match mapGet m2 moduleDir with
      | some (Entry.ov b) => some b
      | _ => none
    | _ => none
  | _ => none

/-- the overview stored as the summary of an owner map, if present. -/
def ownerSummaryOv (tree : JsMap α β) (o : String) : Option β :=
  match mapGet tree o with
  | some (Entry.map m1) =>
    match mapGet m1 "summary" with
    | some (Entry.ov b) => some b
    | _ => none
  | _ => none

/-- the overview stored as the global summary, if present. -/
def globalSummaryOv (tree : JsMap α β) : Option β :=
  match mapGet tree "summary" with
  | some (Entry.ov b) => some b
  | _ => none

/-- the raw array stored as the summary of an owner map, if present. -/
def ownerSummaryRaw (tree : JsMap α β) (o : String) : Option (List α) :=
  match mapGet tree o with
  | some (Entry.map m1) =>
    match mapGet m1 "summary" with
    | some (Entry.raw l) => some l
    | _ => none
  | _ => none

/-- the raw array stored as the global summary, if present. -/
def globalSummaryRaw (tree : JsMap α β) : Option (List α) :=
  match mapGet tree "summary" with
  | some (Entry.raw l) => some l
  | _ => none

/-- the keys of a category map, if present: the summary binding plus the module
leaves recorded under that owner and category. -/
def catKeys (tree : JsMap α β) (o c : String) : Option (List String) :=
  match mapGet tree o with
  | some (Entry.map m1) =>
    match mapGet m1 c with
    | some (Entry.map m2) => some (m2.map (fun p => p.1))
    | _ => none
  | _ => none

/-- the report a job contributes: its records on success, nothing on failure. -/
def reportOf (j : Job α) : List α := j.outcome.getD []

/-- concatenation, in dispatch order, of the records of the jobs recorded under one
owner and category. -/
def catRaw : List (Job α) → String → String → List α
  | [], _, _ => []
  | j :: rest, o, c =>
    (if j.owner == o && j.category == c then reportOf j else []) ++ catRaw rest o c

/-- concatenation, in dispatch order, of the records of the jobs of one owner. -/
def ownerRaw : List (Job α) → String → List α
  | [], _ => []
  | j :: rest, o => (if j.owner == o then reportOf j else []) ++ ownerRaw rest o

/-- concatenation, in dispatch order, of the records of all jobs. -/
def globalRaw : List (Job α) → List α
  | [] => []
  | j :: rest => reportOf j ++ globalRaw rest

/-- well-formedness of the tree during the scheduling phase: the reserved summary
binding holds the empty array and every other binding is a fresh owner subtree. -/
def SchedOk (T : JsMap α β) : Prop :=
  mapGet T "summary" = some (Entry.raw []) ∧
  ∀ k, k ≠ "summary" → mapGet T k = none ∨ mapGet T k = some newOwnerEntry

/-- how a dispatched job relates to the scheduled tree: its category is one of the
three category keys and its owner either is the reserved summary key or owns a
fresh subtree. -/
def GoodJob (T : JsMap α β) (j : Job α) : Prop :=
  j.category ∈ cats ∧ (j.owner = "summary" ∨ mapGet T j.owner = some newOwnerEntry)

/-- state of the tree after the jobs of P have completed, relative to the scheduled
tree T0: the global summary array holds the concatenated records of all completed
jobs, and every owner subtree created by scheduling holds its owner summary and
the three category summaries with exactly the records of its completed jobs. -/
def Inv (T0 T : JsMap α β) (P : List (Job α)) : Prop :=
  mapGet T "summary" = some (Entry.raw (globalRaw P)) ∧
  ∀ o, o ≠ "summary" → mapGet T0 o = some newOwnerEntry →
    ∃ m1, mapGet T o = some (Entry.map m1) ∧
      mapGet m1 "summary" = some (Entry.raw (ownerRaw P o)) ∧
      ∀ c, c ∈ cats → ∃ m2, mapGet m1 c = some (Entry.map m2) ∧
        mapGet m2 "summary" = some (Entry.raw (catRaw P o c))

/-! ## Association-list lemmas for the JavaScript Map operations -/

theorem mapGet_set_self (m : JsMap α β) (k : String) (v : Entry α β) :
    mapGet (mapSet m k v) k = some v := by
  induction m with
  | nil => simp [mapSet, mapGet]
  | cons p rest ih =>
    obtain ⟨k1, v1⟩ := p
    by_cases h : k1 = k
    · subst h
      simp [mapSet, mapGet]
    · simp [mapSet, mapGet, h, ih]

theorem mapGet_set_ne (m : JsMap α β) (k k1 : String) (v : Entry α β) (h : k1 ≠ k) :
    mapGet (mapSet m k v) k1 = mapGet m k1 := by
  induction m with
  | nil => simp [mapSet, mapGet, Ne.symm h]
  | cons p rest ih =>
    obtain ⟨k2, v2⟩ := p
    by_cases h2 : k2 = k
    · subst h2
      simp [mapSet, mapGet, Ne.symm h]
    · by_cases h3 : k2 = k1
      · subst h3
        simp [mapSet, mapGet, h2]
      · simp [mapSet, mapGet, h2, h3, ih]

theorem mapGet_some_of_not_has (m : JsMap α β) (k : String)
    (h : mapHas m k = false) : mapGet m k = none := by
  unfold mapHas at h
  cases hg : mapGet m k with
  | none => rfl
  | some w => rw [hg] at h; simp at h

theorem mapGet_mapKeyed (f : String → Entry α β → Entry α β) (m : JsMap α β) (k : String) :
    mapGet (m.map (fun p => (p.1, f p.1 p.2))) k = (mapGet m k).map (f k) := by
  induction m with
  | nil => simp [mapGet]
  | cons p rest ih =>
    obtain ⟨k1, v1⟩ := p
    by_cases h : k1 = k
    · subst h
      simp [mapGet]
    · simp [mapGet, h, ih]

/-! ## Behaviour of the completion callback -/

/-- successful completion callback: with the owner subtree, category map and the
three summary arrays in place, and none of the three keys equal to the reserved
summary key, the callback replaces the module leaf with the overview of the report
and appends the raw records to the category, owner, and global summary arrays. -/
theorem inspectAndProcessModule_ok (overview : List α → β) (T : JsMap α β)
    (o c mk : String) (r : List α) (m1 m2 : JsMap α β) (l2 l1 lg : List α)
    (hc : c ≠ "summary") (hmk : mk ≠ "summary") (ho : o ≠ "summary")
    (hT : mapGet T o = some (Entry.map m1))
    (hm1c : mapGet m1 c = some (Entry.map m2))
    (hm2s : mapGet m2 "summary" = some (Entry.raw l2))
    (hm1s : mapGet m1 "summary" = some (Entry.raw l1))
    (hTs : mapGet T "summary" = some (Entry.raw lg)) :
    inspectAndProcessModule overview T o c mk r =
      (mapSet
        (mapSet T o (Entry.map
          (mapSet
            (mapSet m1 c (Entry.map
              (mapSet (mapSet m2 mk (Entry.ov (overview r))) "summary"
                (Entry.raw (l2 ++ r)))))
            "summary" (Entry.raw (l1 ++ r)))))
        "summary" (Entry.raw (lg ++ r)), true) := by
  have e2 : mapGet (mapSet m2 mk (Entry.ov (overview r))) "summary"
      = some (Entry.raw l2) := by
    rw [mapGet_set_ne _ _ _ _ (Ne.symm hmk), hm2s]
  have e1 : mapGet (mapSet m1 c (Entry.map
      (mapSet (mapSet m2 mk (Entry.ov (overview r))) "summary" (Entry.raw (l2 ++ r)))))
      "summary" = some (Entry.raw l1) := by
    rw [mapGet_set_ne _ _ _ _ (Ne.symm hc), hm1s]
  simp only [inspectAndProcessModule, hT, hm1c, e2, e1]
  rw [mapGet_set_ne _ _ _ _ (Ne.symm ho), hTs]

/-- a completion callback whose owner key holds a plain array (the reserved global
summary binding) throws at once: the tree is unchanged and the job rejects. -/
theorem inspectAndProcessModule_raw_owner (overview : List α → β) (T : JsMap α β)
    (o c mk : String) (r : List α) (l : List α)
    (hT : mapGet T o = some (Entry.raw l)) :
    inspectAndProcessModule overview T o c mk r = (T, false) := by
  simp only [inspectAndProcessModule, hT]

/-- a completion callback whose module-directory key is the reserved summary key
clobbers the category summary array with an overview and then throws. -/
theorem inspectAndProcessModule_leaf_clobber (overview : List α → β) (T : JsMap α β)
    (o c : String) (r : List α) (m1 m2 : JsMap α β)
    (hT : mapGet T o = some (Entry.map m1))
    (hm1c : mapGet m1 c = some (Entry.map m2)) :
    (inspectAndProcessModule overview T o c "summary" r).2 = false := by
  have e2 : mapGet (mapSet m2 "summary" (Entry.ov (overview r))) "summary"
      = some (Entry.ov (overview r)) := mapGet_set_self _ _ _
  simp only [inspectAndProcessModule, hT, hm1c, e2]

/-! ## Scheduling lemmas -/

theorem schedOk_reportsMap : SchedOk (reportsMap (α := α) (β := β)) := by
  constructor
  · rfl
  · intro k hk
    left
    simp [reportsMap, mapGet, Ne.symm hk]

theorem scheduleModule_mono (owners : String) (m : ModuleInput α) (T T1 : JsMap α β)
    (js : List (Job α)) (h : scheduleModule owners m T = Except.ok (T1, js)) :
    ∀ k v, mapGet T k = some v → mapGet T1 k = some v := by
  intro k v hk
  unfold scheduleModule at h
  by_cases hkw : keywordsInclude m.manifest "ember-addon"
  · rw [if_pos hkw] at h
    cases hres : getModuleOwner owners m.classifierStdout m.classifierStderr with
    | error e => rw [hres] at h; exact absurd h (by simp)
    | ok owner0 =>
      rw [hres] at h
      simp only [Except.ok.injEq, Prod.mk.injEq] at h
      obtain ⟨hT1, hjs⟩ := h
      by_cases hhas : mapHas T (if owner0.length == 0 then "UNKOWN" else owner0)
      · rw [if_pos hhas] at hT1
        rw [← hT1]; exact hk
      · rw [if_neg hhas] at hT1
        rw [← hT1]
        have hnone := mapGet_some_of_not_has T _ (Bool.not_eq_true _ ▸ hhas)
        have hne : k ≠ (if owner0.length == 0 then "UNKOWN" else owner0) := by
          intro hh
          rw [hh, hnone] at hk
          exact Option.noConfusion hk
        rw [mapGet_set_ne _ _ _ _ hne]
        exact hk
  · rw [if_neg hkw] at h
    simp only [Except.ok.injEq, Prod.mk.injEq] at h
    rw [← h.1]
    exact hk

theorem getModuleType_mem_cats (j : Manifest) : getModuleType j ∈ cats := by
  unfold getModuleType cats
  by_cases h : keywordsInclude j "ember-engine"
  · rw [if_pos h]; simp
  · rw [if_neg h]; simp

theorem scheduleModule_sched (owners : String) (m : ModuleInput α) (T T1 : JsMap α β)
    (js : List (Job α)) (hS : SchedOk T) (h : scheduleModule owners m T = Except.ok (T1, js)) :
    SchedOk T1 ∧ ∀ j ∈ js, GoodJob T1 j := by
  unfold scheduleModule at h
  by_cases hkw : keywordsInclude m.manifest "ember-addon"
  · rw [if_pos hkw] at h
    cases hres : getModuleOwner owners m.classifierStdout m.classifierStderr with
    | error e => rw [hres] at h; exact absurd h (by simp)
    | ok owner0 =>
      rw [hres] at h
      simp only [Except.ok.injEq, Prod.mk.injEq] at h
      obtain ⟨hT1, hjs⟩ := h
      set owner := (if owner0.length == 0 then "UNKOWN" else owner0) with howner
      have hjobsOwner : ∀ j ∈ js, j.category ∈ cats ∧ j.owner = owner := by
        intro j hj
        rw [← hjs] at hj
        by_cases ht : m.hasTests
        · rw [if_pos ht] at hj
          simp only [List.mem_cons, List.not_mem_nil, or_false] at hj
          rcases hj with hj | hj
          · subst hj; exact ⟨getModuleType_mem_cats _, rfl⟩
          · subst hj; exact ⟨by simp [cats], rfl⟩
        · rw [if_neg ht] at hj
          simp only [List.mem_cons, List.not_mem_nil, or_false] at hj
          subst hj
          exact ⟨getModuleType_mem_cats _, rfl⟩
      by_cases hhas : mapHas T owner
      · rw [if_pos hhas] at hT1
        have hS1 : SchedOk T1 := hT1 ▸ hS
        refine ⟨hS1, ?_⟩
        intro j hj
        obtain ⟨hcat, hown⟩ := hjobsOwner j hj
        refine ⟨hcat, ?_⟩
        by_cases hsum : owner = "summary"
        · left; rw [hown, hsum]
        · right
          rcases hS.2 owner hsum with hn | he
          · exfalso
            unfold mapHas at hhas
            rw [hn] at hhas
            exact Bool.noConfusion hhas
          · rw [hown, ← hT1]; exact he
      · rw [if_neg hhas] at hT1
        have hnone := mapGet_some_of_not_has T owner (Bool.not_eq_true _ ▸ hhas)
        have hosum : owner ≠ "summary" := by
          intro hh
          rw [hh, hS.1] at hnone
          exact Option.noConfusion hnone
        have hS1 : SchedOk T1 := by
          constructor
          · rw [← hT1, mapGet_set_ne _ _ _ _ (Ne.symm hosum)]
            exact hS.1
          · intro k hk
            by_cases hko : k = owner
            · right
              rw [← hT1, hko, mapGet_set_self]
            · rw [← hT1, mapGet_set_ne _ _ _ _ hko]
              exact hS.2 k hk
        refine ⟨hS1, ?_⟩
        intro j hj
        obtain ⟨hcat, hown⟩ := hjobsOwner j hj
        refine ⟨hcat, Or.inr ?_⟩
        rw [hown, ← hT1, mapGet_set_self]
  · rw [if_neg hkw] at h
    simp only [Except.ok.injEq, Prod.mk.injEq] at h
    refine ⟨h.1 ▸ hS, ?_⟩
    intro j hj
    rw [← h.2] at hj
    exact absurd hj (List.not_mem_nil _)

theorem scheduleAll_mono (owners : String) :
    ∀ (mods : List (ModuleInput α)) (T : JsMap α β) (k : String) (v : Entry α β),
      mapGet T k = some v → mapGet (scheduleAll owners mods T).1 k = some v := by
  intro mods
  induction mods with
  | nil => intro T k v hk; exact hk
  | cons m rest ih =>
    intro T k v hk
    unfold scheduleAll
    cases hres : scheduleModule (β := β) owners m T with
    | error e => exact hk
    | ok p =>
      obtain ⟨T1, js⟩ := p
      exact ih T1 k v (scheduleModule_mono owners m T T1 js hres k v hk)

theorem scheduleAll_sched (owners : String) :
    ∀ (mods : List (ModuleInput α)) (T : JsMap α β), SchedOk T →
      (scheduleAll owners mods T).2.2 = none →
      SchedOk (scheduleAll owners mods T).1 ∧
      ∀ j ∈ (scheduleAll owners mods T).2.1, GoodJob (scheduleAll owners mods T).1 j := by
  intro mods
  induction mods with
  | nil =>
    intro T hS _
    refine ⟨hS, ?_⟩
    intro j hj
    exact absurd hj (List.not_mem_nil _)
  | cons m rest ih =>
    intro T hS herr
    unfold scheduleAll at herr ⊢
    cases hres : scheduleModule (β := β) owners m T with
    | error e => rw [hres] at herr; exact absurd herr (by simp)
    | ok p =>
      obtain ⟨T1, js⟩ := p
      rw [hres] at herr
      simp only at herr
      obtain ⟨hS1, hgood⟩ := scheduleModule_sched owners m T T1 js hS hres
      obtain ⟨hS2, hgood2⟩ := ih T1 hS1 herr
      refine ⟨hS2, ?_⟩
      intro j hj
      simp only [List.mem_append] at hj
      rcases hj with hj | hj
      · obtain ⟨hcat, hown⟩ := hgood j hj
        refine ⟨hcat, ?_⟩
        rcases hown with hown | hown
        · exact Or.inl hown
        · exact Or.inr (scheduleAll_mono owners rest T1 j.owner _ hown)
      · exact hgood2 j hj

/-! ## Concatenation bookkeeping for the raw-record reductions -/

theorem catRaw_append (P Q : List (Job α)) (o c : String) :
    catRaw (P ++ Q) o c = catRaw P o c ++ catRaw Q o c := by
  induction P with
  | nil => simp [catRaw]
  | cons j rest ih => simp [catRaw, ih]

theorem ownerRaw_append (P Q : List (Job α)) (o : String) :
    ownerRaw (P ++ Q) o = ownerRaw P o ++ ownerRaw Q o := by
  induction P with
  | nil => simp [ownerRaw]
  | cons j rest ih => simp [ownerRaw, ih]

theorem globalRaw_append (P Q : List (Job α)) :
    globalRaw (P ++ Q) = globalRaw P ++ globalRaw Q := by
  induction P with
  | nil => simp [globalRaw]
  | cons j rest ih => simp [globalRaw, ih]

theorem catRaw_single (j : Job α) (o c : String) :
    catRaw [j] o c = if j.owner == o && j.category == c then reportOf j else [] := by
  simp [catRaw]

theorem ownerRaw_single (j : Job α) (o : String) :
    ownerRaw [j] o = if j.owner == o then reportOf j else [] := by
  simp [ownerRaw]

theorem globalRaw_single (j : Job α) : globalRaw [j] = reportOf j := by
  simp [globalRaw]

/-! ## The aggregation invariant across job completions -/

theorem mem_cats_ne_summary (c : String) (hc : c ∈ cats) : c ≠ "summary" := by
  simp only [cats, List.mem_cons, List.not_mem_nil, or_false] at hc
  rcases hc with hc | hc | hc <;> subst hc <;> decide

theorem inv_initial (T0 : JsMap α β) (hS : SchedOk T0) : Inv T0 T0 [] := by
  constructor
  · rw [hS.1]; rfl
  · intro o ho hoe
    refine ⟨_, hoe, ?_, ?_⟩
    · rfl
    · intro c hc
      simp only [cats, List.mem_cons, List.not_mem_nil, or_false] at hc
      rcases hc with hc | hc | hc <;> subst hc
      · exact ⟨_, rfl, rfl⟩
      · exact ⟨_, rfl, rfl⟩
      · exact ⟨_, rfl, rfl⟩

theorem settleJobs_inv (overview : List α → β) (T0 : JsMap α β)
    (hT0s : mapGet T0 "summary" = some (Entry.raw [])) :
    ∀ (jobs : List (Job α)) (T : JsMap α β) (P : List (Job α)),
      Inv T0 T P → (∀ j ∈ jobs, GoodJob T0 j) →
      (settleJobs overview T jobs).2 = true →
      Inv T0 (settleJobs overview T jobs).1 (P ++ jobs) := by
  intro jobs
  induction jobs with
  | nil =>
    intro T P hI _ _
    simpa [settleJobs] using hI
  | cons j rest ih =>
    intro T P hI hgood hok
    simp only [settleJobs, Bool.and_eq_true] at hok ⊢
    obtain ⟨hok1, hok2⟩ := hok
    obtain ⟨hjcat, hjown⟩ := hgood j (List.mem_cons_self j rest)
    cases hout : j.outcome with
    | none =>
      rw [settleOne, hout] at hok1
      exact Bool.noConfusion hok1
    | some r =>
      have hsettle : settleOne overview T j
          = inspectAndProcessModule overview T j.owner j.category j.moduleDir r := by
        rw [settleOne, hout]
      rw [hsettle] at hok1 hok2 ⊢
      -- the owner of the completing job cannot be the reserved summary key
      have hosum : j.owner ≠ "summary" := by
        intro hh
        rcases hjown with hjo | hjo
        · rw [hh] at hok1
          rw [inspectAndProcessModule_raw_owner overview T "summary" j.category j.moduleDir r
              (globalRaw P) hI.1] at hok1
          exact Bool.noConfusion hok1
        · rw [hh, hT0s] at hjo
          simp [newOwnerEntry] at hjo
      have hjown2 : mapGet T0 j.owner = some newOwnerEntry := by
        rcases hjown with hjo | hjo
        · exact absurd hjo hosum
        · exact hjo
      obtain ⟨m1, hm1, hm1s, hcats⟩ := hI.2 j.owner hosum hjown2
      obtain ⟨m2, hm2, hm2s⟩ := hcats j.category hjcat
      have hcsum : j.category ≠ "summary" := mem_cats_ne_summary _ hjcat
      -- the module-directory key of the completing job cannot be the summary key
      have hmksum : j.moduleDir ≠ "summary" := by
        intro hh
        rw [hh] at hok1
        rw [← Bool.not_eq_false] at hok1
        exact hok1 (inspectAndProcessModule_leaf_clobber overview T j.owner j.category r
          m1 m2 hm1 hm2)
      rw [inspectAndProcessModule_ok overview T j.owner j.category j.moduleDir r m1 m2
          (catRaw P j.owner j.category) (ownerRaw P j.owner) (globalRaw P)
          hcsum hmksum hosum hm1 hm2 hm2s hm1s hI.1] at hok1 hok2 ⊢
      have hInext : Inv T0
          (mapSet
            (mapSet T j.owner (Entry.map
              (mapSet
                (mapSet m1 j.category (Entry.map
                  (mapSet (mapSet m2 j.moduleDir (Entry.ov (overview r))) "summary"
                    (Entry.raw (catRaw P j.owner j.category ++ r)))))
                "summary" (Entry.raw (ownerRaw P j.owner ++ r)))))
            "summary" (Entry.raw (globalRaw P ++ r)))
          (P ++ [j]) := by
        constructor
        · rw [mapGet_set_self]
          rw [globalRaw_append, globalRaw_single, reportOf, hout]
          rfl
        · intro o ho hoe
          rw [mapGet_set_ne _ _ _ _ ho]
          by_cases hoj : o = j.owner
          · subst hoj
            rw [mapGet_set_self]
            refine ⟨_, rfl, ?_, ?_⟩
            · rw [mapGet_set_self]
              rw [ownerRaw_append, ownerRaw_single]
              simp [reportOf, hout]
            · intro c hc
              have hcsum2 : c ≠ "summary" := mem_cats_ne_summary _ hc
              rw [mapGet_set_ne _ _ _ _ hcsum2]
              by_cases hcj : c = j.category
              · subst hcj
                rw [mapGet_set_self]
                refine ⟨_, rfl, ?_⟩
                rw [mapGet_set_self]
                rw [catRaw_append, catRaw_single]
                simp [reportOf, hout]
              · rw [mapGet_set_ne _ _ _ _ hcj]
                obtain ⟨m2x, hm2x, hm2xs⟩ := hcats c hc
                refine ⟨m2x, hm2x, ?_⟩
                rw [catRaw_append, catRaw_single]
                have hcond : (j.owner == j.owner && j.category == c) = false := by
                  simp [Ne.symm hcj]
                rw [hcond]
                simpa using hm2xs
          · rw [mapGet_set_ne _ _ _ _ hoj]
            obtain ⟨m1x, hm1x, hm1xs, hcatsx⟩ := hI.2 o ho hoe
            refine ⟨m1x, hm1x, ?_, ?_⟩
            · rw [ownerRaw_append, ownerRaw_single]
              have : (j.owner == o) = false := by
                simp
                intro hh
                exact hoj hh.symm
              rw [this]
              simpa using hm1xs
            · intro c hc
              obtain ⟨m2x, hm2x, hm2xs⟩ := hcatsx c hc
              refine ⟨m2x, hm2x, ?_⟩
              rw [catRaw_append, catRaw_single]
              have : (j.owner == o && j.category == c) = false := by
                simp
                intro hh
                exact absurd hh.symm hoj
              rw [this]
              simpa using hm2xs
      have hfin := ih _ (P ++ [j]) hInext
        (fun j2 hj2 => hgood j2 (List.mem_cons_of_mem j hj2)) hok2
      rw [List.append_assoc] at hfin
      simpa using hfin

/-! ## Reading the tree after the summary pass -/

theorem mapGet_summaryPass (overview : List α → β) (T : JsMap α β) (k : String) :
    mapGet (summaryPass overview T) k =
      (mapGet T k).map
        (fun e => if k == "summary" then ovEntry overview e else passOwner overview e) := by
  exact mapGet_mapKeyed
    (fun k1 e => if k1 == "summary" then ovEntry overview e else passOwner overview e) T k

theorem catSummaryOv_summaryPass (overview : List α → β) (T : JsMap α β)
    (o c : String) (m1 m2 : JsMap α β) (l : List α)
    (ho : o ≠ "summary") (hc : c ≠ "summary")
    (h1 : mapGet T o = some (Entry.map m1))
    (h2 : mapGet m1 c = some (Entry.map m2))
    (h3 : mapGet m2 "summary" = some (Entry.raw l)) :
    catSummaryOv (summaryPass overview T) o c = some (overview l) := by
  have hbo : (o == "summary") = false := by simp [ho]
  have hbc : (c == "summary") = false := by simp [hc]
  unfold catSummaryOv
  rw [mapGet_summaryPass, h1]
  simp only [Option.map_some', hbo, Bool.false_eq_true, if_false, passOwner]
  rw [mapGet_mapKeyed (fun k1 e =>
    if k1 == "summary" then ovEntry overview e else passCategory overview e) m1 c, h2]
  simp only [Option.map_some', hbc, Bool.false_eq_true, if_false, passCategory]
  rw [mapGet_mapKeyed (fun k1 e =>
    if k1 == "summary" then ovEntry overview e else e) m2 "summary", h3]
  simp [ovEntry]

theorem ownerSummaryOv_summaryPass (overview : List α → β) (T : JsMap α β)
    (o : String) (m1 : JsMap α β) (l : List α)
    (ho : o ≠ "summary")
    (h1 : mapGet T o = some (Entry.map m1))
    (h2 : mapGet m1 "summary" = some (Entry.raw l)) :
    ownerSummaryOv (summaryPass overview T) o = some (overview l) := by
  have hbo : (o == "summary") = false := by simp [ho]
  unfold ownerSummaryOv
  rw [mapGet_summaryPass, h1]
  simp only [Option.map_some', hbo, Bool.false_eq_true, if_false, passOwner]
  rw [mapGet_mapKeyed (fun k1 e =>
    if k1 == "summary" then ovEntry overview e else passCategory overview e) m1 "summary", h2]
  simp [ovEntry]

theorem globalSummaryOv_summaryPass (overview : List α → β) (T : JsMap α β) (l : List α)
    (h : mapGet T "summary" = some (Entry.raw l)) :
    globalSummaryOv (summaryPass overview T) = some (overview l) := by
  unfold globalSummaryOv
  rw [mapGet_summaryPass, h]
  simp [ovEntry]

/-! ## Claim theorems -/

/-- C1 counterexample: two discovered manifest paths sharing one module directory
(both pass the substring filter) yield two successful jobs on the same leaf key.
The run emits; the addons category map then holds exactly one module leaf, whose
records are those of the last report only, yet the category summary reduces the
records of both jobs, and the owner and global summaries likewise; so the
summaries are not the reduction over the concatenation of the raw per-file
records of the category's module leaves. -/
theorem C1_counterexample :
    ((run (fun l => l) ""
        [⟨"a/package.json", ⟨some "a", some ["ember-addon"]⟩, "", "", false,
          some [1], none⟩,
         ⟨"a/xpackage.json", ⟨some "a2", some ["ember-addon"]⟩, "", "", false,
          some [2], none⟩]).status = RunStatus.emitted)
    ∧ catKeys (run (fun l => l) ""
        [⟨"a/package.json", ⟨some "a", some ["ember-addon"]⟩, "", "", false,
          some [1], none⟩,
         ⟨"a/xpackage.json", ⟨some "a2", some ["ember-addon"]⟩, "", "", false,
          some [2], none⟩]).tree "ALL" "addons" = some ["summary", "a"]
    ∧ leafOv (run (fun l => l) ""
        [⟨"a/package.json", ⟨some "a", some ["ember-addon"]⟩, "", "", false,
          some [1], none⟩,
         ⟨"a/xpackage.json", ⟨some "a2", some ["ember-addon"]⟩, "", "", false,
          some [2], none⟩]).tree "ALL" "addons" "a" = some [2]
    ∧ catSummaryOv (run (fun l => l) ""
        [⟨"a/package.json", ⟨some "a", some ["ember-addon"]⟩, "", "", false,
          some [1], none⟩,
         ⟨"a/xpackage.json", ⟨some "a2", some ["ember-addon"]⟩, "", "", false,
          some [2], none⟩]).tree "ALL" "addons" = some [1, 2]
    ∧ ownerSummaryOv (run (fun l => l) ""
        [⟨"a/package.json", ⟨some "a", some ["ember-addon"]⟩, "", "", false,
          some [1], none⟩,
         ⟨"a/xpackage.json", ⟨some "a2", some ["ember-addon"]⟩, "", "", false,
          some [2], none⟩]).tree "ALL" = some [1, 2]
    ∧ globalSummaryOv (run (fun l => l) ""
        [⟨"a/package.json", ⟨some "a", some ["ember-addon"]⟩, "", "", false,
          some [1], none⟩,
         ⟨"a/xpackage.json", ⟨some "a2", some ["ember-addon"]⟩, "", "", false,
          some [2], none⟩]).tree = some [1, 2]
    ∧ some [1, 2] ≠ some ([2] : List Nat) := by
  decide

/-- C1 amended: after all submitted jobs have completed and the Promise.all
barrier has fulfilled (run status emitted), the summary pass makes, for every
owner subtree created by scheduling and every category, the category summary
equal to the analyzer overview reduction applied to the concatenation, in
dispatch order, of the raw per-file records of all completed jobs recorded under
that owner and category, and transitively makes the owner summary and the single
global summary equal the reduction over the concatenation of the records of all
their jobs. This coincides with the concatenation of the module leaves' records
exactly when each leaf is written by one job; when two manifest paths share a
module directory the leaf keeps only the last report while the summaries keep
every report. -/
theorem C1_bottom_up_summary (α β : Type) (overview : List α → β) (owners : String)
    (files : List (ModuleInput α))
    (hstat : (run overview owners files).status = RunStatus.emitted)
    (o c : String) (ho : o ≠ "summary") (hc : c ∈ cats)
    (hown : mapGet (schedOf (α := α) (β := β) owners files).1 o = some newOwnerEntry) :
    catSummaryOv (run overview owners files).tree o c
        = some (overview (catRaw (schedOf (α := α) (β := β) owners files).2.1 o c)) ∧
    ownerSummaryOv (run overview owners files).tree o
        = some (overview (ownerRaw (schedOf (α := α) (β := β) owners files).2.1 o)) ∧
    globalSummaryOv (run overview owners files).tree
        = some (overview (globalRaw (schedOf (α := α) (β := β) owners files).2.1)) := by
  by_cases hf : files.isEmpty
  · simp [run, hf] at hstat
  · rcases hsch : schedOf (α := α) (β := β) owners files with ⟨T0, rest⟩
    rcases rest with ⟨jobs, err⟩
    unfold run at hstat ⊢
    rw [if_neg hf, hsch] at hstat ⊢
    rw [hsch] at hown
    cases err with
    | some msg => simp [runScheduled] at hstat
    | none =>
      simp only [runScheduled] at hstat ⊢
      by_cases hok : (settleJobs overview T0 jobs).2
      · rw [if_pos hok] at hstat ⊢
        have hsch2 : scheduleAll (β := β) owners (filteredModules files) reportsMap
            = (T0, jobs, none) := by
          rw [← hsch]; rfl
        have herr : (scheduleAll (β := β) owners (filteredModules files) reportsMap).2.2
            = none := by rw [hsch2]
        have hall := scheduleAll_sched owners (filteredModules files) reportsMap
          schedOk_reportsMap herr
        rw [hsch2] at hall
        obtain ⟨hS0, hgood⟩ := hall
        have hI0 : Inv T0 T0 [] := inv_initial T0 hS0
        have hIfin := settleJobs_inv overview T0 hS0.1 jobs T0 [] hI0 hgood hok
        simp only [List.nil_append] at hIfin
        obtain ⟨m1, hm1, hm1s, hcats⟩ := hIfin.2 o ho hown
        obtain ⟨m2, hm2, hm2s⟩ := hcats c hc
        have hcs : c ≠ "summary" := mem_cats_ne_summary c hc
        exact ⟨catSummaryOv_summaryPass overview _ o c m1 m2 _ ho hcs hm1 hm2 hm2s,
          ownerSummaryOv_summaryPass overview _ o m1 _ ho hm1 hm1s,
          globalSummaryOv_summaryPass overview _ _ hIfin.1⟩
      · rw [if_neg hok] at hstat
        simp at hstat

/-- C1 witness: a concrete single-module run in which the ALL owner is scheduled
and every claim hypothesis holds, with the three summaries evaluated. -/
theorem C1_bottom_up_summary_witness :
    ((run (fun l => l) ""
        [⟨"a/package.json", ⟨some "a", some ["ember-addon"]⟩, "", "", false,
          some [1, 2], none⟩]).status = RunStatus.emitted
      ∧ ("ALL" : String) ≠ "summary" ∧ ("addons" : String) ∈ cats
      ∧ mapGet (schedOf (α := Nat) (β := List Nat) ""
          [⟨"a/package.json", ⟨some "a", some ["ember-addon"]⟩, "", "", false,
            some [1, 2], none⟩]).1 "ALL" = some newOwnerEntry)
    ∧ (catSummaryOv (run (fun l => l) ""
        [⟨"a/package.json", ⟨some "a", some ["ember-addon"]⟩, "", "", false,
          some [1, 2], none⟩]).tree "ALL" "addons"
        = some ((fun l => l) (catRaw (schedOf (α := Nat) (β := List Nat) ""
            [⟨"a/package.json", ⟨some "a", some ["ember-addon"]⟩, "", "", false,
              some [1, 2], none⟩]).2.1 "ALL" "addons")) ∧
      ownerSummaryOv (run (fun l => l) ""
        [⟨"a/package.json", ⟨some "a", some ["ember-addon"]⟩, "", "", false,
          some [1, 2], none⟩]).tree "ALL"
        = some ((fun l => l) (ownerRaw (schedOf (α := Nat) (β := List Nat) ""
            [⟨"a/package.json", ⟨some "a", some ["ember-addon"]⟩, "", "", false,
              some [1, 2], none⟩]).2.1 "ALL")) ∧
      globalSummaryOv (run (fun l => l) ""
        [⟨"a/package.json", ⟨some "a", some ["ember-addon"]⟩, "", "", false,
          some [1, 2], none⟩]).tree
        = some ((fun l => l) (globalRaw (schedOf (α := Nat) (β := List Nat) ""
            [⟨"a/package.json", ⟨some "a", some ["ember-addon"]⟩, "", "", false,
              some [1, 2], none⟩]).2.1))) :=
  ⟨⟨by decide, by decide, by decide, by rfl⟩,
    C1_bottom_up_summary Nat (List Nat) (fun l => l) ""
      [⟨"a/package.json", ⟨some "a", some ["ember-addon"]⟩, "", "", false,
        some [1, 2], none⟩]
      (by decide) "ALL" "addons" (by decide) (by decide) (by rfl)⟩

/-- C2 counterexample: completing a second job under the same owner, category and
module key replaces the leaf with the overview of the new report only, yet the
category summary array then holds the records of both reports, so the roll-up has
double-counted the re-processed module. -/
theorem C2_counterexample :
    (leafOv ((inspectAndProcessModule (fun l => l)
        ((inspectAndProcessModule (fun l => l)
          (mapSet (reportsMap (α := Nat) (β := List Nat)) "ALL" newOwnerEntry)
          "ALL" "addons" "m" [1]).1) "ALL" "addons" "m" [2]).1) "ALL" "addons" "m"
      = some [2])
    ∧ (catSummaryRaw ((inspectAndProcessModule (fun l => l)
        ((inspectAndProcessModule (fun l => l)
          (mapSet (reportsMap (α := Nat) (β := List Nat)) "ALL" newOwnerEntry)
          "ALL" "addons" "m" [1]).1) "ALL" "addons" "m" [2]).1) "ALL" "addons"
      = some [1, 2])
    ∧ (ownerSummaryRaw ((inspectAndProcessModule (fun l => l)
        ((inspectAndProcessModule (fun l => l)
          (mapSet (reportsMap (α := Nat) (β := List Nat)) "ALL" newOwnerEntry)
          "ALL" "addons" "m" [1]).1) "ALL" "addons" "m" [2]).1) "ALL"
      = some [1, 2])
    ∧ some [1, 2] ≠ some ([2] : List Nat) := by
  decide

/-- C2 amended: recording a report under an (owner, category, module) key that
already holds a leaf entry replaces that leaf entry and never appends to it, but
every completion also appends its raw records to the category, owner and global
summary arrays, which are never recomputed from the leaves, so re-processing the
same module does not double-count in the leaf yet does double-count in every
roll-up. -/
theorem C2_leaf_replaced_rollups_appended (α β : Type) (overview : List α → β)
    (T : JsMap α β) (o c mk : String) (r2 : List α) (m1 m2 : JsMap α β)
    (l2 l1 lg : List α) (b : β)
    (hc : c ≠ "summary") (hmk : mk ≠ "summary") (ho : o ≠ "summary")
    (hT : mapGet T o = some (Entry.map m1))
    (hm1c : mapGet m1 c = some (Entry.map m2))
    (_hleaf : mapGet m2 mk = some (Entry.ov b))
    (hm2s : mapGet m2 "summary" = some (Entry.raw l2))
    (hm1s : mapGet m1 "summary" = some (Entry.raw l1))
    (hTs : mapGet T "summary" = some (Entry.raw lg)) :
    leafOv (inspectAndProcessModule overview T o c mk r2).1 o c mk
        = some (overview r2)
    ∧ catSummaryRaw (inspectAndProcessModule overview T o c mk r2).1 o c
        = some (l2 ++ r2)
    ∧ ownerSummaryRaw (inspectAndProcessModule overview T o c mk r2).1 o
        = some (l1 ++ r2)
    ∧ globalSummaryRaw (inspectAndProcessModule overview T o c mk r2).1
        = some (lg ++ r2) := by
  rw [inspectAndProcessModule_ok overview T o c mk r2 m1 m2 l2 l1 lg
    hc hmk ho hT hm1c hm2s hm1s hTs]
  have hT2o : mapGet
      (mapSet (mapSet T o (Entry.map
        (mapSet (mapSet m1 c (Entry.map
          (mapSet (mapSet m2 mk (Entry.ov (overview r2))) "summary"
            (Entry.raw (l2 ++ r2)))))
          "summary" (Entry.raw (l1 ++ r2)))))
        "summary" (Entry.raw (lg ++ r2))) o
      = some (Entry.map
        (mapSet (mapSet m1 c (Entry.map
          (mapSet (mapSet m2 mk (Entry.ov (overview r2))) "summary"
            (Entry.raw (l2 ++ r2)))))
          "summary" (Entry.raw (l1 ++ r2)))) := by
    rw [mapGet_set_ne _ _ _ _ ho, mapGet_set_self]
  have hm1bc : mapGet
      (mapSet (mapSet m1 c (Entry.map
        (mapSet (mapSet m2 mk (Entry.ov (overview r2))) "summary"
          (Entry.raw (l2 ++ r2)))))
        "summary" (Entry.raw (l1 ++ r2))) c
      = some (Entry.map
        (mapSet (mapSet m2 mk (Entry.ov (overview r2))) "summary"
          (Entry.raw (l2 ++ r2)))) := by
    rw [mapGet_set_ne _ _ _ _ hc, mapGet_set_self]
  have hm2bmk : mapGet
      (mapSet (mapSet m2 mk (Entry.ov (overview r2))) "summary" (Entry.raw (l2 ++ r2))) mk
      = some (Entry.ov (overview r2)) := by
    rw [mapGet_set_ne _ _ _ _ hmk, mapGet_set_self]
  have hm2bs : mapGet
      (mapSet (mapSet m2 mk (Entry.ov (overview r2))) "summary" (Entry.raw (l2 ++ r2)))
      "summary" = some (Entry.raw (l2 ++ r2)) := mapGet_set_self _ _ _
  have hm1bs : mapGet
      (mapSet (mapSet m1 c (Entry.map
        (mapSet (mapSet m2 mk (Entry.ov (overview r2))) "summary"
          (Entry.raw (l2 ++ r2)))))
        "summary" (Entry.raw (l1 ++ r2))) "summary"
      = some (Entry.raw (l1 ++ r2)) := mapGet_set_self _ _ _
  have hgs : mapGet
      (mapSet (mapSet T o (Entry.map
        (mapSet (mapSet m1 c (Entry.map
          (mapSet (mapSet m2 mk (Entry.ov (overview r2))) "summary"
            (Entry.raw (l2 ++ r2)))))
          "summary" (Entry.raw (l1 ++ r2)))))
        "summary" (Entry.raw (lg ++ r2))) "summary"
      = some (Entry.raw (lg ++ r2)) := mapGet_set_self _ _ _
  refine ⟨?_, ?_, ?_, ?_⟩
  · simp only [leafOv, hT2o, hm1bc, hm2bmk]
  · simp only [catSummaryRaw, hT2o, hm1bc, hm2bs]
  · simp only [ownerSummaryRaw, hT2o, hm1bs]
  · simp only [globalSummaryRaw, hgs]

/-- C2 witness: the amended statement applied to a concrete tree holding a leaf
from an earlier completion of the same module. -/
theorem C2_leaf_replaced_rollups_appended_witness :
    leafOv (inspectAndProcessModule (fun l => l)
        [("summary", Entry.raw [1]),
         ("ALL", Entry.map
           [("addons", Entry.map [("summary", Entry.raw [1]), ("m", Entry.ov [1])]),
            ("engines", Entry.map [("summary", Entry.raw [])]),
            ("tests", Entry.map [("summary", Entry.raw [])]),
            ("summary", Entry.raw [1])])]
        "ALL" "addons" "m" [2]).1 "ALL" "addons" "m" = some ([2] : List Nat)
    ∧ catSummaryRaw (inspectAndProcessModule (fun l => l)
        [("summary", Entry.raw [1]),
         ("ALL", Entry.map
           [("addons", Entry.map [("summary", Entry.raw [1]), ("m", Entry.ov [1])]),
            ("engines", Entry.map [("summary", Entry.raw [])]),
            ("tests", Entry.map [("summary", Entry.raw [])]),
            ("summary", Entry.raw [1])])]
        "ALL" "addons" "m" [2]).1 "ALL" "addons" = some [1, 2]
    ∧ ownerSummaryRaw (inspectAndProcessModule (fun l => l)
        [("summary", Entry.raw [1]),
         ("ALL", Entry.map
           [("addons", Entry.map [("summary", Entry.raw [1]), ("m", Entry.ov [1])]),
            ("engines", Entry.map [("summary", Entry.raw [])]),
            ("tests", Entry.map [("summary", Entry.raw [])]),
            ("summary", Entry.raw [1])])]
        "ALL" "addons" "m" [2]).1 "ALL" = some [1, 2]
    ∧ globalSummaryRaw (inspectAndProcessModule (fun l => l)
        [("summary", Entry.raw [1]),
         ("ALL", Entry.map
           [("addons", Entry.map [("summary", Entry.raw [1]), ("m", Entry.ov [1])]),
            ("engines", Entry.map [("summary", Entry.raw [])]),
            ("tests", Entry.map [("summary", Entry.raw [])]),
            ("summary", Entry.raw [1])])]
        "ALL" "addons" "m" [2]).1 = some [1, 2] :=
  C2_leaf_replaced_rollups_appended Nat (List Nat) (fun l => l)
    [("summary", Entry.raw [1]),
     ("ALL", Entry.map
       [("addons", Entry.map [("summary", Entry.raw [1]), ("m", Entry.ov [1])]),
        ("engines", Entry.map [("summary", Entry.raw [])]),
        ("tests", Entry.map [("summary", Entry.raw [])]),
        ("summary", Entry.raw [1])])]
    "ALL" "addons" "m" [2]
    [("addons", Entry.map [("summary", Entry.raw [1]), ("m", Entry.ov [1])]),
     ("engines", Entry.map [("summary", Entry.raw [])]),
     ("tests", Entry.map [("summary", Entry.raw [])]),
     ("summary", Entry.raw [1])]
    [("summary", Entry.raw [1]), ("m", Entry.ov [1])]
    [1] [1] [1] [1]
    (by decide) (by decide) (by decide)
    (by rfl) (by rfl) (by rfl) (by rfl) (by rfl) (by rfl)

theorem settleJobs_false_of_failed (overview : List α → β) :
    ∀ (jobs : List (Job α)) (T : JsMap α β) (j : Job α), j ∈ jobs → j.outcome = none →
      (settleJobs overview T jobs).2 = false := by
  intro jobs
  induction jobs with
  | nil => intro T j hj _; exact absurd hj (List.not_mem_nil _)
  | cons k rest ih =>
    intro T j hj hout
    simp only [List.mem_cons] at hj
    simp only [settleJobs]
    rcases hj with hj | hj
    · subst hj
      rw [settleOne, hout]
      simp
    · rw [ih (settleOne overview T k).1 j hj hout]
      simp

/-- C3 counterexample: a run with one module whose analyzer invocation rejects and
a sibling module that succeeds. The barrier rejects, the summary pass and report
emission never happen, the failed module leaves no leaf at all, and no failure
count is produced; only the status contradicting the claim is observable. -/
theorem C3_counterexample :
    ((run (fun l => l) ""
        [⟨"a/package.json", ⟨some "a", some ["ember-addon"]⟩, "", "", false, none, none⟩,
         ⟨"b/package.json", ⟨some "b", some ["ember-addon"]⟩, "", "", false,
           some [5], none⟩]).status = RunStatus.rejected)
    ∧ (RunEvent.emitReports ∉ (run (fun l => l) ""
        [⟨"a/package.json", ⟨some "a", some ["ember-addon"]⟩, "", "", false, none, none⟩,
         ⟨"b/package.json", ⟨some "b", some ["ember-addon"]⟩, "", "", false,
           some [5], none⟩]).events)
    ∧ (leafOv (run (fun l => l) ""
        [⟨"a/package.json", ⟨some "a", some ["ember-addon"]⟩, "", "", false, none, none⟩,
         ⟨"b/package.json", ⟨some "b", some ["ember-addon"]⟩, "", "", false,
           some [5], none⟩]).tree "ALL" "addons" "a" = (none : Option (List Nat)))
    ∧ (leafOv (run (fun l => l) ""
        [⟨"a/package.json", ⟨some "a", some ["ember-addon"]⟩, "", "", false, none, none⟩,
         ⟨"b/package.json", ⟨some "b", some ["ember-addon"]⟩, "", "", false,
           some [5], none⟩]).tree "ALL" "addons" "b" = some [5])
    ∧ (catSummaryOv (run (fun l => l) ""
        [⟨"a/package.json", ⟨some "a", some ["ember-addon"]⟩, "", "", false, none, none⟩,
         ⟨"b/package.json", ⟨some "b", some ["ember-addon"]⟩, "", "", false,
           some [5], none⟩]).tree "ALL" "addons" = (none : Option (List Nat))) := by
  decide

/-- C3 amended: a job whose analyzer invocation fails runs no completion callback,
so no failed leaf is recorded and no failure count exists; the Promise.all barrier
rejects, so the run never reaches the summary pass or report emission and ends as
an unhandled rejection, while the completion callbacks of sibling jobs still run
on their own promises. -/
theorem C3_failed_job_rejects_run (α β : Type) (overview : List α → β) (owners : String)
    (files : List (ModuleInput α)) (j : Job α)
    (hne : files.isEmpty = false)
    (herr : (schedOf (α := α) (β := β) owners files).2.2 = none)
    (hj : j ∈ (schedOf (α := α) (β := β) owners files).2.1)
    (hfail : j.outcome = none) :
    (run overview owners files).status = RunStatus.rejected
    ∧ RunEvent.emitReports ∉ (run overview owners files).events := by
  rcases hsch : schedOf (α := α) (β := β) owners files with ⟨T0, rest⟩
  rcases rest with ⟨jobs, err⟩
  rw [hsch] at herr hj
  simp only at herr hj
  subst herr
  unfold run
  rw [if_neg (by simp [hne]), hsch]
  simp only [runScheduled]
  rw [if_neg (by simp [settleJobs_false_of_failed overview jobs T0 j hj hfail])]
  refine ⟨rfl, ?_⟩
  simp

/-- C4 counterexample: the empty-glob run does fail with the configuration error
before any job is scheduled, but only after the static asset bundle has already
been copied into the output directory, so work is performed before the failure. -/
theorem C4_counterexample :
    ((run (fun l => l) "" ([] : List (ModuleInput Nat))).status = RunStatus.emptyGlob)
    ∧ (run (fun l => l) "" ([] : List (ModuleInput Nat))).events
        = [RunEvent.copyAssets]
    ∧ (run (fun l => l) "" ([] : List (ModuleInput Nat))).events
        ≠ ([] : List (RunEvent Nat)) := by
  decide

/-- C4 amended: when the expanded glob file list is empty the run fails with the
configuration error before any analysis job is scheduled and before any report is
emitted, but after the static assets have been copied to the output directory. -/
theorem C4_empty_glob_fails_after_assets (α β : Type) (overview : List α → β)
    (owners : String) :
    (run overview owners ([] : List (ModuleInput α))).status = RunStatus.emptyGlob
    ∧ (run overview owners ([] : List (ModuleInput α))).events = [RunEvent.copyAssets]
    ∧ (∀ j : Job α,
        RunEvent.scheduleJob j ∉ (run overview owners ([] : List (ModuleInput α))).events)
    ∧ RunEvent.emitReports ∉ (run overview owners ([] : List (ModuleInput α))).events := by
  refine ⟨rfl, rfl, ?_, ?_⟩
  · intro j
    simp [run, reportsMap]
  · simp [run, reportsMap]

/-- C5 counterexample: with a configured classifier whose stdout is empty, owner
resolution returns the trimmed stderr, not the trimmed stdout. -/
theorem C5_counterexample :
    getModuleOwner "cls" "" "TeamX " = Except.ok "TeamX"
    ∧ jsTrim "" = ""
    ∧ ("TeamX" : String) ≠ "" :=
  ⟨by rfl, by rfl, by decide⟩

/-- C5 amended: with no classifier configured every owner label is the constant
ALL; with a classifier configured, resolution returns the trimmed stdout when
stdout is non-empty and otherwise the trimmed stderr; when the used output
contains the Error marker, resolution throws, a processed module propagates the
throw out of the scheduling loop, and the pending error aborts the entire run
before any summary pass or report emission. -/
theorem C5_owner_resolution (α β : Type) (overview : List α → β) :
    (∀ stdout stderr : String, getModuleOwner "" stdout stderr = Except.ok "ALL")
    ∧ (∀ owners stdout stderr : String, owners ≠ "" → stdout ≠ "" →
        getModuleOwner owners stdout stderr =
          (if strIncludes (jsTrim stdout) "Error" then Except.error (jsTrim stdout)
            else Except.ok (jsTrim stdout)))
    ∧ (∀ owners stderr : String, owners ≠ "" →
        getModuleOwner owners "" stderr =
          (if strIncludes (jsTrim stderr) "Error" then Except.error (jsTrim stderr)
            else Except.ok (jsTrim stderr)))
    ∧ (∀ (owners : String) (m : ModuleInput α) (T : JsMap α β) (e : String),
        keywordsInclude m.manifest "ember-addon" = true →
        getModuleOwner owners m.classifierStdout m.classifierStderr = Except.error e →
        scheduleModule owners m T = Except.error e)
    ∧ (∀ (owners : String) (files : List (ModuleInput α)) (msg : String),
        files.isEmpty = false →
        (schedOf (α := α) (β := β) owners files).2.2 = some msg →
        (run overview owners files).status = RunStatus.classifierAbort msg
        ∧ RunEvent.emitReports ∉ (run overview owners files).events) := by
  refine ⟨?_, ?_, ?_, ?_, ?_⟩
  · intro stdout stderr
    rfl
  · intro owners stdout stderr howners hstdout
    simp [getModuleOwner, execShellCommand, bne_iff_ne, howners, hstdout]
  · intro owners stderr howners
    simp [getModuleOwner, execShellCommand, bne_iff_ne, howners]
  · intro owners m T e hkw hres
    unfold scheduleModule
    rw [if_pos hkw, hres]
  · intro owners files msg hne herr
    rcases hsch : schedOf (α := α) (β := β) owners files with ⟨T0, rest⟩
    rcases rest with ⟨jobs, err⟩
    rw [hsch] at herr
    simp only at herr
    subst herr
    unfold run
    rw [if_neg (by simp [hne]), hsch]
    simp [runScheduled]

/-- C3 witness: the amended statement applied to a concrete two-module run whose
first body job fails. -/
theorem C3_failed_job_rejects_run_witness :
    (([⟨"a/package.json", ⟨some "a", some ["ember-addon"]⟩, "", "", false, none, none⟩,
       ⟨"b/package.json", ⟨some "b", some ["ember-addon"]⟩, "", "", false,
         some [5], none⟩] : List (ModuleInput Nat)).isEmpty = false
      ∧ (schedOf (α := Nat) (β := List Nat) ""
          [⟨"a/package.json", ⟨some "a", some ["ember-addon"]⟩, "", "", false, none, none⟩,
           ⟨"b/package.json", ⟨some "b", some ["ember-addon"]⟩, "", "", false,
             some [5], none⟩]).2.2 = none
      ∧ (⟨"ALL", "addons", "a/package.json", "a", "a", none⟩ : Job Nat)
          ∈ (schedOf (α := Nat) (β := List Nat) ""
          [⟨"a/package.json", ⟨some "a", some ["ember-addon"]⟩, "", "", false, none, none⟩,
           ⟨"b/package.json", ⟨some "b", some ["ember-addon"]⟩, "", "", false,
             some [5], none⟩]).2.1
      ∧ (⟨"ALL", "addons", "a/package.json", "a", "a", none⟩ : Job Nat).outcome = none)
    ∧ ((run (fun l => l) ""
        [⟨"a/package.json", ⟨some "a", some ["ember-addon"]⟩, "", "", false, none, none⟩,
         ⟨"b/package.json", ⟨some "b", some ["ember-addon"]⟩, "", "", false,
           some [5], none⟩]).status = RunStatus.rejected
      ∧ RunEvent.emitReports ∉ (run (fun l => l) ""
        [⟨"a/package.json", ⟨some "a", some ["ember-addon"]⟩, "", "", false, none, none⟩,
         ⟨"b/package.json", ⟨some "b", some ["ember-addon"]⟩, "", "", false,
           some [5], none⟩]).events) :=
  ⟨⟨by decide, by decide, by decide, by decide⟩,
    C3_failed_job_rejects_run Nat (List Nat) (fun l => l) ""
      [⟨"a/package.json", ⟨some "a", some ["ember-addon"]⟩, "", "", false, none, none⟩,
       ⟨"b/package.json", ⟨some "b", some ["ember-addon"]⟩, "", "", false,
         some [5], none⟩]
      ⟨"ALL", "addons", "a/package.json", "a", "a", none⟩
      (by decide) (by decide) (by decide) (by decide)⟩

/-- C5 witness: the amended statement applied at concrete classifier outputs, plus
the concrete aborting run. -/
theorem C5_owner_resolution_witness :
    getModuleOwner "" "x" "y" = Except.ok "ALL"
    ∧ getModuleOwner "cls" " TeamY " "z" = Except.ok "TeamY"
    ∧ getModuleOwner "cls" "" "TeamX " = Except.ok "TeamX"
    ∧ scheduleModule (α := Nat) (β := List Nat) "cls"
        ⟨"a/package.json", ⟨some "a", some ["ember-addon"]⟩, "Error: boom", "", false,
          some [], none⟩ reportsMap = Except.error "Error: boom"
    ∧ (run (fun l : List Nat => l) "cls"
        [⟨"a/package.json", ⟨some "a", some ["ember-addon"]⟩, "Error: boom", "", false,
          some [], none⟩]).status = RunStatus.classifierAbort "Error: boom"
    ∧ RunEvent.emitReports ∉ (run (fun l : List Nat => l) "cls"
        [⟨"a/package.json", ⟨some "a", some ["ember-addon"]⟩, "Error: boom", "", false,
          some [], none⟩]).events := by
  have h := C5_owner_resolution Nat (List Nat) (fun l : List Nat => l)
  refine ⟨h.1 "x" "y", ?_, ?_, ?_, ?_, ?_⟩
  · rw [h.2.1 "cls" " TeamY " "z" (by decide) (by decide)]
    rfl
  · rw [h.2.2.1 "cls" "TeamX " (by decide)]
    rfl
  · exact h.2.2.2.1 "cls"
      ⟨"a/package.json", ⟨some "a", some ["ember-addon"]⟩, "Error: boom", "", false,
        some [], none⟩ reportsMap "Error: boom" (by decide) (by rfl)
  · exact (h.2.2.2.2 "cls"
      [⟨"a/package.json", ⟨some "a", some ["ember-addon"]⟩, "Error: boom", "", false,
        some [], none⟩] "Error: boom" (by decide) (by decide)).1
  · exact (h.2.2.2.2 "cls"
      [⟨"a/package.json", ⟨some "a", some ["ember-addon"]⟩, "Error: boom", "", false,
        some [], none⟩] "Error: boom" (by decide) (by decide)).2

/-- C6: every processed module contributes exactly one body job, recorded under
the derived category of the module (engines when the manifest keywords include the
engine marker, otherwise addons), plus a second job under the tests category
exactly when a tests subdirectory exists; no module contributes more than two
jobs. -/
theorem C6_module_jobs (α β : Type) (owners : String) (m : ModuleInput α)
    (T T1 : JsMap α β) (js : List (Job α))
    (hm : keywordsInclude m.manifest "ember-addon" = true)
    (h : scheduleModule owners m T = Except.ok (T1, js)) :
    ∃ body : Job α,
      js = (if m.hasTests then
          [body, ⟨body.owner, "tests", m.path, body.moduleDir, body.title ++ "-tests",
            m.testsOutcome⟩]
        else [body])
      ∧ body.category = getModuleType m.manifest
      ∧ (keywordsInclude m.manifest "ember-engine" = true → body.category = "engines")
      ∧ (keywordsInclude m.manifest "ember-engine" = false → body.category = "addons")
      ∧ body.category ≠ "tests"
      ∧ body.srcPath = m.path
      ∧ body.outcome = m.bodyOutcome
      ∧ js.length = (if m.hasTests then 2 else 1)
      ∧ js.length ≤ 2 := by
  unfold scheduleModule at h
  rw [if_pos hm] at h
  cases hres : getModuleOwner owners m.classifierStdout m.classifierStderr with
  | error e => rw [hres] at h; exact absurd h (by simp)
  | ok owner0 =>
    rw [hres] at h
    simp only [Except.ok.injEq, Prod.mk.injEq] at h
    obtain ⟨hT1, hjs⟩ := h
    refine ⟨⟨(if owner0.length == 0 then "UNKOWN" else owner0), getModuleType m.manifest,
      m.path, dirname m.path,
      (match m.manifest.name with | some n => n | none => sanitize (dirname m.path)),
      m.bodyOutcome⟩, ?_, rfl, ?_, ?_, ?_, rfl, rfl, ?_, ?_⟩
    · rw [← hjs]
    · intro he
      show getModuleType m.manifest = "engines"
      unfold getModuleType
      rw [if_pos he]
    · intro he
      show getModuleType m.manifest = "addons"
      unfold getModuleType
      rw [if_neg (by simp [he])]
    · show getModuleType m.manifest ≠ "tests"
      unfold getModuleType
      by_cases he : keywordsInclude m.manifest "ember-engine"
      · rw [if_pos he]; decide
      · rw [if_neg he]; decide
    · rw [← hjs]
      by_cases ht : m.hasTests
      · rw [if_pos ht, if_pos ht]
        rfl
      · rw [if_neg ht, if_neg ht]
        rfl
    · rw [← hjs]
      by_cases ht : m.hasTests
      · rw [if_pos ht]
        simp
      · rw [if_neg ht]
        simp

/-- C6 witness: a concrete module with a tests subdirectory yielding its two
jobs. -/
theorem C6_module_jobs_witness :
    (keywordsInclude (⟨some "a", some ["ember-addon"]⟩ : Manifest) "ember-addon" = true
      ∧ scheduleModule (α := Nat) (β := List Nat) ""
        ⟨"a/package.json", ⟨some "a", some ["ember-addon"]⟩, "", "", true,
          some [], some []⟩ reportsMap
        = Except.ok ([("summary", Entry.raw []), ("ALL", newOwnerEntry)],
          [⟨"ALL", "addons", "a/package.json", "a", "a", some []⟩,
           ⟨"ALL", "tests", "a/package.json", "a", "a-tests", some []⟩]))
    ∧ ∃ body : Job Nat,
      [⟨"ALL", "addons", "a/package.json", "a", "a", some []⟩,
       ⟨"ALL", "tests", "a/package.json", "a", "a-tests", some []⟩]
        = (if (⟨"a/package.json", ⟨some "a", some ["ember-addon"]⟩, "", "", true,
              some [], some []⟩ : ModuleInput Nat).hasTests then
            [body, ⟨body.owner, "tests", "a/package.json", body.moduleDir,
              body.title ++ "-tests", some []⟩]
          else [body])
      ∧ body.category = getModuleType ⟨some "a", some ["ember-addon"]⟩
      ∧ (keywordsInclude (⟨some "a", some ["ember-addon"]⟩ : Manifest) "ember-engine" = true →
          body.category = "engines")
      ∧ (keywordsInclude (⟨some "a", some ["ember-addon"]⟩ : Manifest) "ember-engine" = false →
          body.category = "addons")
      ∧ body.category ≠ "tests"
      ∧ body.srcPath = "a/package.json"
      ∧ body.outcome = some []
      ∧ ([⟨"ALL", "addons", "a/package.json", "a", "a", some []⟩,
          ⟨"ALL", "tests", "a/package.json", "a", "a-tests", some []⟩] : List (Job Nat)).length
          = (if (⟨"a/package.json", ⟨some "a", some ["ember-addon"]⟩, "", "", true,
                some [], some []⟩ : ModuleInput Nat).hasTests then 2 else 1)
      ∧ ([⟨"ALL", "addons", "a/package.json", "a", "a", some []⟩,
          ⟨"ALL", "tests", "a/package.json", "a", "a-tests", some []⟩] : List (Job Nat)).length
          ≤ 2 :=
  ⟨⟨by decide, by rfl⟩,
    C6_module_jobs Nat (List Nat) ""
      ⟨"a/package.json", ⟨some "a", some ["ember-addon"]⟩, "", "", true, some [], some []⟩
      reportsMap [("summary", Entry.raw []), ("ALL", newOwnerEntry)]
      [⟨"ALL", "addons", "a/package.json", "a", "a", some []⟩,
       ⟨"ALL", "tests", "a/package.json", "a", "a-tests", some []⟩]
      (by decide) (by rfl)⟩

theorem startsWithChars_self (p : List Char) : startsWithChars p p = true := by
  induction p with
  | nil => rfl
  | cons c cs ih => simp [startsWithChars, ih]

theorem includesChars_append_self (l p : List Char) : includesChars (l ++ p) p = true := by
  cases p with
  | nil => simp [includesChars]
  | cons q qs =>
    induction l with
    | nil =>
      simp only [List.nil_append]
      rw [includesChars]
      simp [startsWithChars_self]
    | cons c rest ih =>
      simp only [List.cons_append]
      rw [includesChars]
      simp [ih]

theorem strIncludes_append_tests (t : String) : strIncludes (t ++ "-tests") "tests" = true := by
  unfold strIncludes
  rw [String.data_append]
  have hsplit : t.data ++ ("-tests").data = (t.data ++ ['-']) ++ ("tests").data := by
    have hd : ("-tests").data = '-' :: ("tests").data := rfl
    rw [hd]
    simp
  rw [hsplit]
  exact includesChars_append_self _ _

/-- C7 counterexample: a module whose manifest name already contains the substring
tests. Its body job, recorded under the addons category, receives the exclusion
pattern of a tests job (covering addon code and the entry point) instead of the
pattern covering the tests subtree, so which pattern a job receives is not
determined by which job it is. -/
theorem C7_counterexample :
    (schedOf (α := Nat) (β := List Nat) ""
      [⟨"a/package.json", ⟨some "tests-utils", some ["ember-addon"]⟩, "", "", false,
        some [], none⟩]).2.1.map
        (fun j => (j.category, j.title, inspectModuleExclude j.title))
      = [("addons", "tests-utils", "app|styles|build|.eyeglass_cache|addon|index.js")]
    ∧ ("app|styles|build|.eyeglass_cache|addon|index.js" : String)
        ≠ excludeBase ++ "|tests" := by
  decide

/-- C7 amended: the worker chooses the exclusion pattern by testing whether the
job title contains the substring tests. A tests job always carries the suffixed
title, so it always receives the pattern covering addon code and the entry point;
a body job receives the pattern covering the tests subtree exactly when its own
title does not contain that substring. -/
theorem C7_exclusion_by_title (α β : Type) (owners : String) (m : ModuleInput α)
    (T T1 : JsMap α β) (body tests : Job α)
    (h : scheduleModule owners m T = Except.ok (T1, [body, tests])) :
    inspectModuleExclude tests.title = excludeBase ++ "|addon|index.js"
    ∧ (strIncludes body.title "tests" = false →
        inspectModuleExclude body.title = excludeBase ++ "|tests")
    ∧ (strIncludes body.title "tests" = true →
        inspectModuleExclude body.title = excludeBase ++ "|addon|index.js") := by
  have htitle : tests.title = body.title ++ "-tests" := by
    unfold scheduleModule at h
    by_cases hkw : keywordsInclude m.manifest "ember-addon"
    · rw [if_pos hkw] at h
      cases hres : getModuleOwner owners m.classifierStdout m.classifierStderr with
      | error e => rw [hres] at h; exact absurd h (by simp)
      | ok owner0 =>
        rw [hres] at h
        simp only [Except.ok.injEq, Prod.mk.injEq] at h
        obtain ⟨hT1, hjs⟩ := h
        by_cases ht : m.hasTests
        · rw [if_pos ht] at hjs
          simp only [List.cons.injEq, List.nil_eq] at hjs
          obtain ⟨hb, ht2, _⟩ := hjs
          rw [← hb, ← ht2]
        · rw [if_neg ht] at hjs
          simp at hjs
    · rw [if_neg hkw] at h
      simp at h
  refine ⟨?_, ?_, ?_⟩
  · rw [htitle]
    unfold inspectModuleExclude
    rw [if_pos (strIncludes_append_tests body.title)]
  · intro hb
    unfold inspectModuleExclude
    rw [if_neg (by simp [hb])]
  · intro hb
    unfold inspectModuleExclude
    rw [if_pos hb]

/-- C7 witness: the amended statement applied to a concrete module with tests. -/
theorem C7_exclusion_by_title_witness :
    inspectModuleExclude "a-tests" = excludeBase ++ "|addon|index.js"
    ∧ inspectModuleExclude "a" = excludeBase ++ "|tests" := by
  have h := C7_exclusion_by_title Nat (List Nat) ""
    ⟨"a/package.json", ⟨some "a", some ["ember-addon"]⟩, "", "", true, some [], some []⟩
    reportsMap [("summary", Entry.raw []), ("ALL", newOwnerEntry)]
    ⟨"ALL", "addons", "a/package.json", "a", "a", some []⟩
    ⟨"ALL", "tests", "a/package.json", "a", "a-tests", some []⟩
    (by rfl)
  exact ⟨h.1, h.2.1 (by decide)⟩

theorem scheduleModule_srcPath (owners : String) (m : ModuleInput α) (T T1 : JsMap α β)
    (js : List (Job α)) (p : String) (h : scheduleModule owners m T = Except.ok (T1, js)) :
    (∃ j ∈ js, j.srcPath = p) ↔
      (m.path = p ∧ keywordsInclude m.manifest "ember-addon" = true) := by
  unfold scheduleModule at h
  by_cases hkw : keywordsInclude m.manifest "ember-addon"
  · rw [if_pos hkw] at h
    cases hres : getModuleOwner owners m.classifierStdout m.classifierStderr with
    | error e => rw [hres] at h; exact absurd h (by simp)
    | ok owner0 =>
      rw [hres] at h
      simp only [Except.ok.injEq, Prod.mk.injEq] at h
      obtain ⟨hT1, hjs⟩ := h
      constructor
      · rintro ⟨j, hj, hp⟩
        refine ⟨?_, hkw⟩
        rw [← hjs] at hj
        by_cases ht : m.hasTests
        · rw [if_pos ht] at hj
          simp only [List.mem_cons, List.not_mem_nil, or_false] at hj
          rcases hj with hj | hj <;> (subst hj; exact hp)
        · rw [if_neg ht] at hj
          simp only [List.mem_cons, List.not_mem_nil, or_false] at hj
          subst hj
          exact hp
      · rintro ⟨hp, _⟩
        rw [← hjs]
        by_cases ht : m.hasTests
        · rw [if_pos ht]
          exact ⟨_, List.mem_cons_self _ _, hp⟩
        · rw [if_neg ht]
          exact ⟨_, List.mem_cons_self _ _, hp⟩
  · rw [if_neg hkw] at h
    simp only [Except.ok.injEq, Prod.mk.injEq] at h
    constructor
    · rintro ⟨j, hj, hp⟩
      rw [← h.2] at hj
      exact absurd hj (List.not_mem_nil _)
    · rintro ⟨_, hk⟩
      rw [hk] at hkw
      exact absurd rfl hkw

theorem scheduleAll_srcPath (owners : String) (p : String) :
    ∀ (mods : List (ModuleInput α)) (T : JsMap α β),
      (scheduleAll owners mods T).2.2 = none →
      ((∃ j ∈ (scheduleAll owners mods T).2.1, j.srcPath = p) ↔
        ∃ m ∈ mods, m.path = p ∧ keywordsInclude m.manifest "ember-addon" = true) := by
  intro mods
  induction mods with
  | nil =>
    intro T _
    simp [scheduleAll]
  | cons m rest ih =>
    intro T herr
    unfold scheduleAll at herr ⊢
    cases hres : scheduleModule (β := β) owners m T with
    | error e => rw [hres] at herr; exact absurd herr (by simp)
    | ok pr =>
      obtain ⟨T1, js⟩ := pr
      rw [hres] at herr
      simp only at herr
      constructor
      · rintro ⟨j, hj, hp⟩
        simp only [List.mem_append] at hj
        rcases hj with hj | hj
        · have hm := (scheduleModule_srcPath owners m T T1 js p hres).mp ⟨j, hj, hp⟩
          exact ⟨m, List.mem_cons_self _ _, hm⟩
        · obtain ⟨m2, hm2, hm2p⟩ := (ih T1 herr).mp ⟨j, hj, hp⟩
          exact ⟨m2, List.mem_cons_of_mem _ hm2, hm2p⟩
      · rintro ⟨m2, hm2, hm2p⟩
        simp only [List.mem_cons] at hm2
        rcases hm2 with hm2 | hm2
        · rw [hm2] at hm2p
          obtain ⟨j, hj, hp⟩ := (scheduleModule_srcPath owners m T T1 js p hres).mpr hm2p
          exact ⟨j, by simp [List.mem_append, hj], hp⟩
        · obtain ⟨j, hj, hp⟩ := (ih T1 herr).mpr ⟨m2, hm2, hm2p⟩
          exact ⟨j, by simp [List.mem_append, hj], hp⟩

/-- C8 counterexample: a path containing package.json only as a substring, whose
basename is not the manifest filename, still passes the filter and is analyzed
(its job is dispatched), so the analyzed set is not the set of paths whose
basename is package.json. -/
theorem C8_counterexample :
    (schedOf (α := Nat) (β := List Nat) ""
      [⟨"lib/a/package.json.bak", ⟨some "a", some ["ember-addon"]⟩, "", "", false,
        some [], none⟩]).2.1.map (fun j => j.srcPath)
      = ["lib/a/package.json.bak"]
    ∧ basename "lib/a/package.json.bak" ≠ "package.json" := by
  decide

/-- C8 amended: assuming owner classification raises no error, the engine
dispatches jobs for exactly those discovered paths that contain package.json as a
substring anywhere in the path (not only basename matches) and whose manifest
keywords contain the ember-addon marker; a manifest lacking the marker is skipped
without failing the scheduling loop. -/
theorem C8_substring_filter (α β : Type) (owners : String)
    (files : List (ModuleInput α)) (p : String)
    (herr : (schedOf (α := α) (β := β) owners files).2.2 = none) :
    ((∃ j ∈ (schedOf (α := α) (β := β) owners files).2.1, j.srcPath = p) ↔
      (∃ f ∈ files, f.path = p ∧ strIncludes f.path "package.json" = true ∧
        keywordsInclude f.manifest "ember-addon" = true))
    ∧ ∀ (m : ModuleInput α) (T : JsMap α β),
        keywordsInclude m.manifest "ember-addon" = false →
        scheduleModule owners m T = Except.ok (T, []) := by
  unfold schedOf at herr ⊢
  constructor
  · rw [scheduleAll_srcPath owners p (filteredModules files) reportsMap herr]
    constructor
    · rintro ⟨m2, hm2, hp, hk⟩
      unfold filteredModules at hm2
      rw [List.mem_filter] at hm2
      exact ⟨m2, hm2.1, hp, hm2.2, hk⟩
    · rintro ⟨f, hf, hp, hs, hk⟩
      refine ⟨f, ?_, hp, hk⟩
      unfold filteredModules
      rw [List.mem_filter]
      exact ⟨hf, hs⟩
  · intro m T hm
    unfold scheduleModule
    rw [if_neg (by simp [hm])]

/-- C8 witness: the amended characterization applied to the concrete run with a
path whose basename is not the manifest filename, plus the concrete skip of an
unmarked manifest. -/
theorem C8_substring_filter_witness :
    ((∃ j ∈ (schedOf (α := Nat) (β := List Nat) ""
        [⟨"lib/a/package.json.bak", ⟨some "a", some ["ember-addon"]⟩, "", "", false,
          some [], none⟩]).2.1, j.srcPath = "lib/a/package.json.bak") ↔
      (∃ f ∈ ([⟨"lib/a/package.json.bak", ⟨some "a", some ["ember-addon"]⟩, "", "", false,
          some [], none⟩] : List (ModuleInput Nat)),
        f.path = "lib/a/package.json.bak"
        ∧ strIncludes f.path "package.json" = true
        ∧ keywordsInclude f.manifest "ember-addon" = true))
    ∧ scheduleModule (α := Nat) (β := List Nat) ""
        ⟨"b/package.json", ⟨some "b", some ["just-a-lib"]⟩, "", "", false, none, none⟩
        reportsMap = Except.ok (reportsMap, []) := by
  have h := C8_substring_filter Nat (List Nat) ""
    [⟨"lib/a/package.json.bak", ⟨some "a", some ["ember-addon"]⟩, "", "", false,
      some [], none⟩] "lib/a/package.json.bak" (by decide)
  exact ⟨h.1, h.2 ⟨"b/package.json", ⟨some "b", some ["just-a-lib"]⟩, "", "", false,
    none, none⟩ reportsMap (by decide)⟩

/-- C9: with a configured classifier whose combined output trims to the empty
string, owner resolution does not throw (the empty label has no error marker) and
the module is attributed to the literal label UNKOWN; the module is scheduled,
all its jobs carry that owner, and an owner subtree under UNKOWN exists in the
tree afterwards. -/
theorem C9_unkown_owner (α β : Type) (owners : String) (m : ModuleInput α)
    (T : JsMap α β)
    (howners : owners ≠ "")
    (hm : keywordsInclude m.manifest "ember-addon" = true)
    (htrim : jsTrim (execShellCommand m.classifierStdout m.classifierStderr) = "") :
    ∃ (T1 : JsMap α β) (js : List (Job α)),
      scheduleModule owners m T = Except.ok (T1, js)
      ∧ js ≠ []
      ∧ (∀ j ∈ js, j.owner = "UNKOWN")
      ∧ mapHas T1 "UNKOWN" = true := by
  have hb : (owners != "") = true := by simp [bne_iff_ne, howners]
  have hres : getModuleOwner owners m.classifierStdout m.classifierStderr
      = Except.ok "" := by
    unfold getModuleOwner
    rw [hb, htrim]
    rfl
  unfold scheduleModule
  rw [if_pos hm, hres]
  have hlen : ((("" : String).length == 0) = true) := by decide
  refine ⟨_, _, rfl, ?_, ?_, ?_⟩
  · by_cases ht : m.hasTests
    · rw [if_pos ht]; simp
    · rw [if_neg ht]; simp
  · intro j hj
    by_cases ht : m.hasTests
    · rw [if_pos ht] at hj
      simp only [List.mem_cons, List.not_mem_nil, or_false] at hj
      rcases hj with hj | hj <;> (subst hj; simp [hlen])
    · rw [if_neg ht] at hj
      simp only [List.mem_cons, List.not_mem_nil, or_false] at hj
      subst hj
      simp [hlen]
  · rw [if_pos hlen]
    by_cases hhas : mapHas T "UNKOWN"
    · rw [if_pos hhas]
      exact hhas
    · rw [if_neg hhas]
      unfold mapHas
      rw [mapGet_set_self]
      rfl

/-- C9 witness: a configured classifier printing only whitespace attributes the
module to UNKOWN. -/
theorem C9_unkown_owner_witness :
    (("cls" : String) ≠ ""
      ∧ keywordsInclude (⟨some "a", some ["ember-addon"]⟩ : Manifest) "ember-addon" = true
      ∧ jsTrim (execShellCommand " " "") = "")
    ∧ ∃ (T1 : JsMap Nat (List Nat)) (js : List (Job Nat)),
      scheduleModule "cls"
        (⟨"a/package.json", ⟨some "a", some ["ember-addon"]⟩, " ", "", false,
          some [], none⟩ : ModuleInput Nat) reportsMap = Except.ok (T1, js)
      ∧ js ≠ []
      ∧ (∀ j ∈ js, j.owner = "UNKOWN")
      ∧ mapHas T1 "UNKOWN" = true :=
  ⟨⟨by decide, by decide, by decide⟩,
    C9_unkown_owner Nat (List Nat) "cls"
      ⟨"a/package.json", ⟨some "a", some ["ember-addon"]⟩, " ", "", false, some [], none⟩
      reportsMap (by decide) (by decide) (by decide)⟩

/-- C10: the reserved global summary binding shadows an owner label that is the
literal string summary. The completion callback of any job under that owner always
throws on the plain array it finds at the owner key, leaving the tree unchanged
and rejecting the job; in a run whose classifier resolves an owner to summary, no
owner subtree is created, the barrier rejects, and the summary pass never runs. -/
theorem C10_summary_owner_shadowed (α β : Type) (overview : List α → β) :
    (∀ (T : JsMap α β) (l : List α) (c mk : String) (r : List α),
        mapGet T "summary" = some (Entry.raw l) →
        inspectAndProcessModule overview T "summary" c mk r = (T, false))
    ∧ (∀ rep : List α,
        (run overview "cls"
          [⟨"m/package.json", ⟨some "m", some ["ember-addon"]⟩, "summary", "", false,
            some rep, none⟩]).status = RunStatus.rejected
        ∧ (run overview "cls"
            [⟨"m/package.json", ⟨some "m", some ["ember-addon"]⟩, "summary", "", false,
              some rep, none⟩]).tree = reportsMap
        ∧ ∀ k, k ≠ "summary" → mapGet (run overview "cls"
            [⟨"m/package.json", ⟨some "m", some ["ember-addon"]⟩, "summary", "", false,
              some rep, none⟩]).tree k = none) := by
  constructor
  · intro T l c mk r hT
    exact inspectAndProcessModule_raw_owner overview T "summary" c mk r l hT
  · intro rep
    refine ⟨rfl, rfl, ?_⟩
    intro k hk
    have htree : (run overview "cls"
        [⟨"m/package.json", ⟨some "m", some ["ember-addon"]⟩, "summary", "", false,
          some rep, none⟩]).tree = reportsMap := rfl
    rw [htree]
    simp [reportsMap, mapGet, Ne.symm hk]

/-- C10 witness: the throwing callback and the rejected run at concrete inputs. -/
theorem C10_summary_owner_shadowed_witness :
    (inspectAndProcessModule (fun l => l) (reportsMap (α := Nat) (β := List Nat))
        "summary" "addons" "m" [7] = (reportsMap, false))
    ∧ (run (fun l : List Nat => l) "cls"
        [⟨"m/package.json", ⟨some "m", some ["ember-addon"]⟩, "summary", "", false,
          some [7], none⟩]).status = RunStatus.rejected
    ∧ (run (fun l : List Nat => l) "cls"
        [⟨"m/package.json", ⟨some "m", some ["ember-addon"]⟩, "summary", "", false,
          some [7], none⟩]).tree = reportsMap
    ∧ mapGet (run (fun l : List Nat => l) "cls"
        [⟨"m/package.json", ⟨some "m", some ["ember-addon"]⟩, "summary", "", false,
          some [7], none⟩]).tree "UNKOWN" = none := by
  have h := C10_summary_owner_shadowed Nat (List Nat) (fun l : List Nat => l)
  exact ⟨h.1 reportsMap [] "addons" "m" [7] (by rfl),
    (h.2 [7]).1, (h.2 [7]).2.1, (h.2 [7]).2.2 "UNKOWN" (by decide)⟩

/-- C4 witness: the amended statement applied at concrete type and argument
choices. -/
theorem C4_empty_glob_fails_after_assets_witness :
    (run (fun l : List Nat => l) "" ([] : List (ModuleInput Nat))).status
        = RunStatus.emptyGlob
    ∧ (run (fun l : List Nat => l) "" ([] : List (ModuleInput Nat))).events
        = [RunEvent.copyAssets]
    ∧ RunEvent.emitReports
        ∉ (run (fun l : List Nat => l) "" ([] : List (ModuleInput Nat))).events :=
  ⟨(C4_empty_glob_fails_after_assets Nat (List Nat) (fun l : List Nat => l) "").1,
    (C4_empty_glob_fails_after_assets Nat (List Nat) (fun l : List Nat => l) "").2.1,
    (C4_empty_glob_fails_after_assets Nat (List Nat) (fun l : List Nat => l) "").2.2.2⟩

end PlatoRunner
